import Mathlib

/-!
Verification development for the xray-knife repository.

Part 1 embeds `utils` (incrementIP, CIDRtoListIP, net.CIDRMask / Mask /
Contains as used by them), modelling an IP address as its big-endian list
of bytes (each a `Nat` below 256).  Part 2 embeds the web API handlers
(`api_handlers.go`) and the WebSocket consumer batching logic
(`websocket.ts`) as pure functions over explicit inputs.
-/

namespace XrayKnife

/-! ### IP addresses as byte lists -/

/-- `incLE` is the carry loop of `incrementIP` expressed on the
little-endian (reversed) byte list: the Go loop walks from the last byte
towards the first, zeroing 255-bytes and incrementing the first other
byte. -/
def incLE : List Nat → List Nat
  | [] => []
  | b :: rest => if b = 255 then 0 :: incLE rest else (b + 1) :: rest

/-- `incrementIP` from `utils`: increments an IP in place, treating it as a
big-endian byte-wise counter wrapping at 256. -/
def incrementIP (ip : List Nat) : List Nat :=
  (incLE ip.reverse).reverse

/-- `net.CIDRMask ones (8*n)`: the n-byte prefix mask, most significant
byte first.  While at least 8 mask bits remain the byte is 255, the next
byte keeps the remaining high bits (`^byte(0xff >> ones)`), and the rest
are 0. -/
def CIDRMask : Nat → Nat → List Nat
  | _, 0 => []
  | ones, n + 1 =>
    if 8 ≤ ones then 255 :: CIDRMask (ones - 8) n
    else (256 - 2 ^ (8 - ones)) :: CIDRMask 0 n

/-- `net.IP.Mask`: byte-wise AND of an address with a mask. -/
def maskIP (ip mask : List Nat) : List Nat :=
  List.zipWith (fun a b => a &&& b) ip mask

/-- `net.IPNet.Contains`: the candidate has the network's length and agrees
with it on every masked byte. -/
def containsIP (network mask ip : List Nat) : Bool :=
  ip.length == network.length && maskIP network mask == maskIP ip mask

/-- The enumeration loop of `CIDRtoListIP`
(`for ip := base; ipNet.Contains(ip); incrementIP(&ip) { append }`),
indexed by fuel; `none` means the fuel ran out with the loop still
running. -/
def cidrLoop (network mask : List Nat) : Nat → List Nat → Option (List (List Nat))
  | 0, ip =>
    if containsIP network mask ip then none else some []
  | f + 1, ip =>
    if containsIP network mask ip then
      (cidrLoop network mask f (incrementIP ip)).map (fun rest => ip :: rest)
    else some []

/-- `CIDRtoListIP` on an already-parsed CIDR: the base address is the input
masked with the prefix mask, and the loop enumerates from it. -/
def CIDRtoListIP (ip : List Nat) (ones fuel : Nat) : Option (List (List Nat)) :=
  cidrLoop (maskIP ip (CIDRMask ones ip.length)) (CIDRMask ones ip.length) fuel
    (maskIP ip (CIDRMask ones ip.length))

/-- Rendering of a 4-byte IP as Go's `ip.String()` dotted decimal. -/
def ipv4String (l : List Nat) : String :=
  String.intercalate "." (l.map (fun b => toString b))

/-- The numeric value of a little-endian byte list. -/
def valLE : List Nat → Nat
  | [] => 0
  | b :: rest => b + 256 * valLE rest

/-- The numeric value of a big-endian byte list (the address in network
order). -/
def valBE : List Nat → Nat
  | [] => 0
  | b :: rest => b * 256 ^ rest.length + valBE rest

/-- Every byte of the list is an actual byte ( < 256 ). -/
def bytesValid (l : List Nat) : Bool :=
  l.all (fun b => decide (b < 256))

/-- The loop of `CIDRtoListIP` never returns, whatever the fuel. -/
def enumerationDiverges (ip : List Nat) (ones : Nat) : Prop :=
  ∀ fuel, CIDRtoListIP ip ones fuel = none

/-! ### Web API handlers (`api_handlers.go`)

Handlers are modelled as pure functions of the request method and of the
outcomes of their effectful collaborators (file contents, manager results,
HTTP fetches), returning the response they write. -/

/-- A CSV record: the flattened field list of one result row. -/
abbrev Row := List String

/-- The JSON payload written by a handler. -/
inductive Payload where
  | statusMsg (s : String)
  | errorMsg (s : String)
  | rows (rs : List Row)
  | ranges (rs : List String)
deriving DecidableEq

/-- An HTTP response: status code plus JSON body. -/
structure HttpResponse where
  status : Nat
  body : Payload
deriving DecidableEq

/-- Modelled from the spec: `writeJSONError` is not under `src/`; per §6 an
error response is `{"error": string}` with the indicated status. -/
def writeJSONError (msg : String) (status : Nat) : HttpResponse :=
  ⟨status, Payload.errorMsg msg⟩

/-- Modelled from the spec: `writeJSONResponse` is not under `src/`; it
writes the given status and JSON payload. -/
def writeJSONResponse (status : Nat) (p : Payload) : HttpResponse :=
  ⟨status, p⟩

/-- Modelled from the spec: `methodNotAllowed` is not under `src/`; a
request with the wrong method is rejected with 405. -/
def methodNotAllowed : HttpResponse :=
  writeJSONError "Method not allowed" 405

/-- `appendResultsToCSV`: `MarshalCSV` (header plus rows) when the file has
size 0, `MarshalCSVWithoutHeaders` (rows appended) otherwise.  `contents`
is the file's row list; a missing file is `[]` because the file is opened
with `O_CREATE`. -/
def appendResultsToCSV (header : Row) (contents : List Row) (batch : List Row) :
    List Row :=
  if contents.isEmpty then header :: batch else contents ++ batch

/-- `loadResultsFromCSV`: a missing file (`none`) and an empty file (gocsv
returns `EOF`) both yield a nil error and no records; otherwise the header
row is consumed and each remaining record must have as many fields as the
header, else gocsv fails and the function returns an error. -/
def loadResultsFromCSV (file : Option (List Row)) : Except String (List Row) :=
  match file with
  | none => Except.ok []
  | some [] => Except.ok []
  | some (header :: rows) =>
    if rows.all (fun r => r.length == header.length) then Except.ok rows
    else Except.error "failed to parse CSV file"

/-- `handleProxyStop`: POST only; `StopProxy`'s error (if any) is reported
with 404, success with 200. -/
def handleProxyStop (method : String) (stopOutcome : Option String) :
    HttpResponse :=
  if method ≠ "POST" then methodNotAllowed
  else
    match stopOutcome with
    | some e => writeJSONError e 404
    | none => writeJSONResponse 200 (Payload.statusMsg "Proxy service stopped")

/-- `handleProxyRotate`: POST only; `RotateProxy`'s error (if any) is
reported with 409, success with 200. -/
def handleProxyRotate (method : String) (rotateOutcome : Option String) :
    HttpResponse :=
  if method ≠ "POST" then methodNotAllowed
  else
    match rotateOutcome with
    | some e => writeJSONError e 409
    | none => writeJSONResponse 200 (Payload.statusMsg "Rotate signal sent")

/-- `handleHttpTestHistory`: GET only; a load error is reported with 500,
otherwise the (possibly empty) records are returned with 200. -/
def handleHttpTestHistory (method : String) (file : Option (List Row)) :
    HttpResponse :=
  if method ≠ "GET" then methodNotAllowed
  else
    match loadResultsFromCSV file with
    | Except.error e =>
      writeJSONError ("failed to load http test history: " ++ e) 500
    | Except.ok results => writeJSONResponse 200 (Payload.rows results)

/-- The hardcoded fallback list `cloudflareRanges`, verbatim from
`api_handlers.go`. -/
def cloudflareRanges : List String := [
  -- IPv4 Fallback
  "173.245.48.0/20",
  "103.21.244.0/22",
  "103.22.200.0/22",
  "103.31.4.0/22",
  "141.101.64.0/18",
  "108.162.192.0/18",
  "190.93.240.0/20",
  "188.114.96.0/20",
  "197.234.240.0/22",
  "198.41.128.0/17",
  "162.158.0.0/15",
  "104.16.0.0/13",
  "104.24.0.0/14",
  "172.64.0.0/13",
  "131.0.72.0/22",
  -- IPv6 Fallback
  "2606:4700::/32",
  "2803:f800::/32",
  "2400:cb00::/32",
  "2c0f:f248::/32",
  "2a06:98c0::/29"]

/-- An IPv6 CIDR string contains a colon. -/
def isIPv6Range (s : String) : Bool := s.data.contains ':'

/-- The outcome of one `http.Get` of a ranges URL: transport error, status
code, body-read error, body text. -/
structure FetchResult where
  netErr : Bool
  status : Nat
  readErr : Bool
  body : String
deriving DecidableEq

/-- A fetch contributes to `firstError` if the request failed, the status
was not 200 OK, or reading the body failed. -/
def fetchFailed (r : FetchResult) : Bool :=
  r.netErr || r.status != 200 || r.readErr

/-- `strings.Split(strings.TrimSpace(body), "\n")`. -/
def splitRanges (body : String) : List String :=
  (body.trim).splitOn "\n"

/-- `handleCfScannerRanges`: GET only; the goroutines fetch each URL, any
failure sets `firstError`, successful bodies accumulate into `allRanges`;
if `firstError` is set the hardcoded fallback is served, otherwise the
accumulated live ranges. -/
def handleCfScannerRanges (method : String) (fetches : List FetchResult) :
    HttpResponse :=
  if method ≠ "GET" then methodNotAllowed
  else
    let firstError := fetches.any fetchFailed
    let allRanges :=
      (fetches.filter (fun r => !fetchFailed r)).foldr
        (fun r acc => splitRanges r.body ++ acc) []
    if firstError then writeJSONResponse 200 (Payload.ranges cloudflareRanges)
    else writeJSONResponse 200 (Payload.ranges allRanges)

/-! ### WebSocket consumer batching (`websocket.ts`) -/

/-- `BATCH_INTERVAL = 250; // ms` -/
def BATCH_INTERVAL : Nat := 250

/-- The client-side state of `WebSocketService`: the pending
`httpResultBuffer`, whether `httpResultTimer` is set, and the results the
store has received via `addHttpResultsBatch`. -/
structure WsState where
  buffer : List String
  timerActive : Bool
  store : List String
deriving DecidableEq

/-- What can reach the batching logic: an `http_result` message, an
`http_test_status` message, a firing of the 250 ms interval timer, or the
socket closing. -/
inductive WsEvent where
  | httpResult (r : String)
  | httpTestStatus (s : String)
  | tick
  | socketClosed
deriving DecidableEq

/-- `flushHttpResultBuffer`: deliver the buffer to the store (in order) and
clear it. -/
def flushHttpResultBuffer (st : WsState) : WsState :=
  if st.buffer.isEmpty then st
  else { st with store := st.store ++ st.buffer, buffer := [] }

/-- `startHttpResultBatching`: arm the interval timer if not armed. -/
def startHttpResultBatching (st : WsState) : WsState :=
  { st with timerActive := true }

/-- `stopHttpResultBatching`: clear the timer, then flush what remains. -/
def stopHttpResultBatching (st : WsState) : WsState :=
  flushHttpResultBuffer { st with timerActive := false }

/-- One step of the consumer: `http_result` arms the timer and buffers the
payload; `http_test_status` stops the timer and flushes; a timer tick
flushes (the timer only exists while armed); `onclose` also stops and
flushes. -/
def wsStep (st : WsState) : WsEvent → WsState
  | WsEvent.httpResult r =>
    let st1 := startHttpResultBatching st
    { st1 with buffer := st1.buffer ++ [r] }
  | WsEvent.httpTestStatus _ => stopHttpResultBatching st
  | WsEvent.tick => if st.timerActive then flushHttpResultBuffer st else st
  | WsEvent.socketClosed => stopHttpResultBatching st

/-- The consumer, run from the initial state over a message trace. -/
def wsRun (events : List WsEvent) : WsState :=
  events.foldl wsStep ⟨[], false, []⟩

/-- The `http_result` payloads of a trace, in arrival order. -/
def wsResults (events : List WsEvent) : List String :=
  events.filterMap (fun e =>
    match e with
    | WsEvent.httpResult r => some r
    | _ => none)

/-! ### Basic lemmas about the byte-list arithmetic -/

lemma bytesValid_iff {l : List Nat} :
    bytesValid l = true ↔ ∀ b ∈ l, b < 256 := by
  simp [bytesValid, List.all_eq_true]

lemma length_incLE (l : List Nat) : (incLE l).length = l.length := by
  induction l with
  | nil => rfl
  | cons b rest ih =>
    by_cases hb : b = 255 <;> simp [incLE, hb, ih]

lemma bytesValid_incLE {l : List Nat} (h : bytesValid l = true) :
    bytesValid (incLE l) = true := by
  rw [bytesValid_iff] at h ⊢
  induction l with
  | nil => simp [incLE]
  | cons b rest ih =>
    have hb : b < 256 := h b (List.mem_cons_self _ _)
    have hrest : ∀ c ∈ rest, c < 256 := fun c hc => h c (List.mem_cons_of_mem _ hc)
    by_cases hb255 : b = 255
    · rw [show incLE (b :: rest) = 0 :: incLE rest from by
        rw [incLE, if_pos hb255]]
      intro x hx
      rcases List.mem_cons.mp hx with h0 | hx2
      · omega
      · exact ih hrest x hx2
    · rw [show incLE (b :: rest) = (b + 1) :: rest from by
        rw [incLE, if_neg hb255]]
      intro x hx
      rcases List.mem_cons.mp hx with h0 | hx2
      · omega
      · exact hrest x hx2

lemma valLE_lt {l : List Nat} (h : bytesValid l = true) :
    valLE l < 256 ^ l.length := by
  rw [bytesValid_iff] at h
  induction l with
  | nil => simp [valLE]
  | cons b rest ih =>
    have hb : b < 256 := h b (List.mem_cons_self _ _)
    have hr : valLE rest < 256 ^ rest.length :=
      ih (fun c hc => h c (List.mem_cons_of_mem _ hc))
    calc b + 256 * valLE rest < 256 + 256 * valLE rest := by omega
      _ = 256 * (valLE rest + 1) := by ring
      _ ≤ 256 * 256 ^ rest.length := by
          exact Nat.mul_le_mul_left _ (by omega)
      _ = 256 ^ (rest.length + 1) := by rw [pow_succ]; ring

lemma valLE_incLE {l : List Nat} (h : bytesValid l = true) :
    valLE (incLE l) = (valLE l + 1) % 256 ^ l.length := by
  rw [bytesValid_iff] at h
  induction l with
  | nil => simp [incLE, valLE]
  | cons b rest ih =>
    have hb : b < 256 := h b (List.mem_cons_self _ _)
    have hrest : ∀ c ∈ rest, c < 256 := fun c hc => h c (List.mem_cons_of_mem _ hc)
    have hr : valLE rest < 256 ^ rest.length := by
      have : bytesValid rest = true := bytesValid_iff.mpr hrest
      exact valLE_lt this
    by_cases hb255 : b = 255
    · subst hb255
      rw [show incLE (255 :: rest) = 0 :: incLE rest from by
        rw [incLE, if_pos rfl]]
      simp only [valLE, List.length_cons]
      rw [ih hrest]
      have h2 : (255 : Nat) + 256 * valLE rest + 1 = 256 * (valLE rest + 1) := by ring
      calc (0 : Nat) + 256 * ((valLE rest + 1) % 256 ^ rest.length)
          = 256 * ((valLE rest + 1) % 256 ^ rest.length) := by ring
        _ = 256 * (valLE rest + 1) % (256 * 256 ^ rest.length) :=
            (Nat.mul_mod_mul_left _ _ _).symm
        _ = (255 + 256 * valLE rest + 1) % 256 ^ (rest.length + 1) := by
            rw [h2, pow_succ, mul_comm (256 ^ rest.length) 256]
    · rw [show incLE (b :: rest) = (b + 1) :: rest from by
        rw [incLE, if_neg hb255]]
      simp only [valLE, List.length_cons]
      have h3 : (256 : Nat) ^ (rest.length + 1) = 256 * 256 ^ rest.length := by
        rw [pow_succ]; ring
      have h1 : (1 : Nat) ≤ 256 ^ rest.length := Nat.one_le_pow _ _ (by norm_num)
      rw [Nat.mod_eq_of_lt (by omega)]
      omega

lemma valLE_append (xs : List Nat) (b : Nat) :
    valLE (xs ++ [b]) = valLE xs + b * 256 ^ xs.length := by
  induction xs with
  | nil => simp [valLE]
  | cons c rest ih =>
    show valLE (c :: (rest ++ [b])) = _
    simp only [valLE, ih, List.length_cons]
    rw [pow_succ]
    ring

lemma valBE_eq_valLE_reverse (l : List Nat) : valBE l = valLE l.reverse := by
  induction l with
  | nil => rfl
  | cons b rest ih =>
    simp only [valBE, List.reverse_cons, valLE_append, ih, List.length_reverse]
    ring

lemma valBE_lt {l : List Nat} (h : bytesValid l = true) :
    valBE l < 256 ^ l.length := by
  rw [valBE_eq_valLE_reverse]
  have hv : bytesValid l.reverse = true := by
    rw [bytesValid_iff] at h ⊢
    intro b hb
    exact h b (List.mem_reverse.mp hb)
  have := valLE_lt hv
  rwa [List.length_reverse] at this

lemma length_incrementIP (ip : List Nat) :
    (incrementIP ip).length = ip.length := by
  simp [incrementIP, length_incLE]

lemma bytesValid_incrementIP {ip : List Nat} (h : bytesValid ip = true) :
    bytesValid (incrementIP ip) = true := by
  have hrev : bytesValid ip.reverse = true := by
    rw [bytesValid_iff] at h ⊢
    intro b hb
    exact h b (List.mem_reverse.mp hb)
  have hinc := bytesValid_incLE hrev
  rw [bytesValid_iff] at hinc ⊢
  intro b hb
  exact hinc b (List.mem_reverse.mp hb)

/-- `incrementIP` is the successor modulo `256 ^ length` on the address
value. -/
lemma valBE_incrementIP {ip : List Nat} (h : bytesValid ip = true) :
    valBE (incrementIP ip) = (valBE ip + 1) % 256 ^ ip.length := by
  have hrev : bytesValid ip.reverse = true := by
    rw [bytesValid_iff] at h ⊢
    intro b hb
    exact h b (List.mem_reverse.mp hb)
  rw [incrementIP, valBE_eq_valLE_reverse, List.reverse_reverse,
    valLE_incLE hrev, valBE_eq_valLE_reverse, List.length_reverse]

/-- All-255 wraps around to all-zero. -/
lemma incrementIP_all_255 (n : Nat) :
    incrementIP (List.replicate n 255) = List.replicate n 0 := by
  have hLE : ∀ m, incLE (List.replicate m 255) = List.replicate m 0 := by
    intro m
    induction m with
    | zero => rfl
    | succ k ih => simp [List.replicate_succ, incLE, ih]
  simp [incrementIP, List.reverse_replicate, hLE]

/-! ### Prefix masks and the value they select -/

set_option maxRecDepth 10000 in
/-- AND of a byte with a byte keeping its high `8 - k` bits clears the low
`k` bits. -/
lemma byteAndMask : ∀ b < 256, ∀ k ≤ 8, b &&& (256 - 2 ^ k) = b / 2 ^ k * 2 ^ k := by
  decide

lemma and_255_eq {b : Nat} (hb : b < 256) : b &&& 255 = b := by
  have h := byteAndMask b hb 0 (by omega)
  simpa using h

lemma length_CIDRMask (ones n : Nat) : (CIDRMask ones n).length = n := by
  induction n generalizing ones with
  | zero => rfl
  | succ m ih => by_cases h : 8 ≤ ones <;> simp [CIDRMask, h, ih]

lemma bytesValid_CIDRMask (ones n : Nat) : bytesValid (CIDRMask ones n) = true := by
  rw [bytesValid_iff]
  induction n generalizing ones with
  | zero => intro b hb; simp [CIDRMask] at hb
  | succ m ih =>
    intro b hb
    by_cases h : 8 ≤ ones
    · rw [show CIDRMask ones (m + 1) = 255 :: CIDRMask (ones - 8) m from by
        rw [CIDRMask, if_pos h]] at hb
      rcases List.mem_cons.mp hb with h0 | h1
      · omega
      · exact ih _ b h1
    · rw [show CIDRMask ones (m + 1) = (256 - 2 ^ (8 - ones)) :: CIDRMask 0 m from by
        rw [CIDRMask, if_neg h]] at hb
      rcases List.mem_cons.mp hb with h0 | h1
      · have : (1 : Nat) ≤ 2 ^ (8 - ones) := Nat.one_le_pow _ _ (by norm_num)
        omega
      · exact ih _ b h1

lemma CIDRMask_zero (n : Nat) : CIDRMask 0 n = List.replicate n 0 := by
  induction n with
  | zero => rfl
  | succ m ih =>
    rw [show CIDRMask 0 (m + 1) = (256 - 2 ^ (8 - 0)) :: CIDRMask 0 m from by
      rw [CIDRMask, if_neg (by omega)]]
    rw [ih]
    norm_num [List.replicate_succ]

lemma maskIP_zero_right (x : List Nat) (n : Nat) (hx : x.length = n) :
    maskIP x (List.replicate n 0) = List.replicate n 0 := by
  induction x generalizing n with
  | nil => simp at hx; subst hx; rfl
  | cons b rest ih =>
    cases n with
    | zero => simp at hx
    | succ m =>
      have hm : rest.length = m := by simpa using hx
      simp only [List.replicate_succ, maskIP, List.zipWith_cons_cons]
      rw [show b &&& 0 = 0 from Nat.and_zero b]
      exact congrArg (0 :: ·) (ih m hm)

lemma valBE_replicate_zero (n : Nat) : valBE (List.replicate n 0) = 0 := by
  induction n with
  | zero => rfl
  | succ m ih => simp [List.replicate_succ, valBE, ih]

lemma pow256_eq (m : Nat) : (256 : Nat) ^ m = 2 ^ (8 * m) := by
  rw [show (256 : Nat) = 2 ^ 8 from rfl, ← pow_mul]

lemma div_mul_of_dvd_add (a r d : Nat) (hd : 0 < d) (hdvd : d ∣ a) :
    (a + r) / d * d = a + r / d * d := by
  obtain ⟨q, rfl⟩ := hdvd
  rw [Nat.mul_add_div hd]
  ring

lemma bytesValid_cons {b : Nat} {rest : List Nat} :
    bytesValid (b :: rest) = true ↔ b < 256 ∧ bytesValid rest = true := by
  simp [bytesValid]

/-- Masking with the `ones`-bit prefix mask clears the low
`8 * length - ones` bits of the address value. -/
lemma valBE_maskIP (x : List Nat) : ∀ ones : Nat, ones ≤ 8 * x.length →
    bytesValid x = true →
    valBE (maskIP x (CIDRMask ones x.length)) =
      valBE x / 2 ^ (8 * x.length - ones) * 2 ^ (8 * x.length - ones) := by
  induction x with
  | nil =>
    intro ones h _
    have : ones = 0 := by simpa using h
    subst this
    simp [maskIP, CIDRMask, valBE]
  | cons b rest ih =>
    intro ones hones hv
    obtain ⟨hb, hvrest⟩ := bytesValid_cons.mp hv
    have hr : valBE rest < 256 ^ rest.length := valBE_lt hvrest
    by_cases h8 : 8 ≤ ones
    · -- first mask byte is 255: the head byte is kept whole
      rw [show CIDRMask ones (b :: rest).length
            = 255 :: CIDRMask (ones - 8) rest.length from by
        rw [List.length_cons, CIDRMask, if_pos h8]]
      simp only [maskIP, List.zipWith_cons_cons, valBE]
      rw [and_255_eq hb]
      have hlen : (List.zipWith (fun a b => a &&& b) rest
          (CIDRMask (ones - 8) rest.length)).length = rest.length := by
        rw [List.length_zipWith, length_CIDRMask, Nat.min_self]
      rw [hlen]
      have hones2 : ones - 8 ≤ 8 * rest.length := by
        simp only [List.length_cons] at hones; omega
      have ihr := ih (ones - 8) hones2 hvrest
      rw [show maskIP rest (CIDRMask (ones - 8) rest.length)
            = List.zipWith (fun a b => a &&& b) rest
                (CIDRMask (ones - 8) rest.length) from rfl] at ihr
      rw [ihr]
      have hh : 8 * rest.length - (ones - 8) = 8 * (b :: rest).length - ones := by
        simp only [List.length_cons]; omega
      rw [hh]
      set h := 8 * (b :: rest).length - ones with hdef
      have hle : h ≤ 8 * rest.length := by
        simp only [List.length_cons] at hones ⊢; omega
      have hdvd : 2 ^ h ∣ b * 256 ^ rest.length := by
        refine Dvd.dvd.mul_left ?_ b
        rw [pow256_eq]
        exact pow_dvd_pow 2 hle
      have hpos : 0 < 2 ^ h := Nat.pos_pow_of_pos _ (by norm_num)
      rw [div_mul_of_dvd_add (b * 256 ^ rest.length) (valBE rest) (2 ^ h) hpos hdvd]
    · -- the head mask byte keeps `ones` high bits; the rest of the mask is 0
      have hlt8 : ones < 8 := by omega
      rw [show CIDRMask ones (b :: rest).length
            = (256 - 2 ^ (8 - ones)) :: CIDRMask 0 rest.length from by
        rw [List.length_cons, CIDRMask, if_neg h8]]
      rw [CIDRMask_zero]
      simp only [maskIP, List.zipWith_cons_cons, valBE]
      rw [show List.zipWith (fun a b => a &&& b) rest (List.replicate rest.length 0)
            = maskIP rest (List.replicate rest.length 0) from rfl,
        maskIP_zero_right rest rest.length rfl, valBE_replicate_zero,
        List.length_replicate]
      rw [byteAndMask b hb (8 - ones) (by omega)]
      set k := 8 - ones with hk
      have hH : 8 * (rest.length + 1) - ones = 8 * rest.length + k := by
        omega
      simp only [List.length_cons]
      rw [hH]
      have hsplit : (2 : Nat) ^ (8 * rest.length + k)
          = 256 ^ rest.length * 2 ^ k := by
        rw [pow_add, pow256_eq]
      rw [hsplit]
      have hquot : (b * 256 ^ rest.length + valBE rest)
          / (256 ^ rest.length * 2 ^ k) = b / 2 ^ k := by
        rw [← Nat.div_div_eq_div_mul, mul_comm b (256 ^ rest.length),
          Nat.mul_add_div (Nat.pos_pow_of_pos _ (by norm_num)),
          Nat.div_eq_of_lt hr, Nat.add_zero]
      rw [hquot]
      ring

/-- `valBE` is injective on valid byte lists of equal length. -/
lemma valBE_inj : ∀ {x y : List Nat}, x.length = y.length →
    bytesValid x = true → bytesValid y = true → valBE x = valBE y → x = y := by
  intro x
  induction x with
  | nil =>
    intro y hlen _ _ _
    cases y with
    | nil => rfl
    | cons c tail => simp at hlen
  | cons b rest ih =>
    intro y hlen hvx hvy hval
    cases y with
    | nil => simp at hlen
    | cons c tail =>
      obtain ⟨hb, hvrest⟩ := bytesValid_cons.mp hvx
      obtain ⟨hc, hvtail⟩ := bytesValid_cons.mp hvy
      have hlen2 : rest.length = tail.length := by simpa using hlen
      have hvr : valBE rest < 256 ^ rest.length := valBE_lt hvrest
      have hvt : valBE tail < 256 ^ rest.length := by
        rw [hlen2]; exact valBE_lt hvtail
      simp only [valBE, ← hlen2] at hval
      have hP : (0 : Nat) < 256 ^ rest.length :=
        Nat.pos_pow_of_pos _ (by norm_num)
      have hbc : b = c := by
        have h1 : (b * 256 ^ rest.length + valBE rest) / 256 ^ rest.length = b := by
          rw [mul_comm b, Nat.mul_add_div hP, Nat.div_eq_of_lt hvr, Nat.add_zero]
        have h2 : (c * 256 ^ rest.length + valBE tail) / 256 ^ rest.length = c := by
          rw [mul_comm c, Nat.mul_add_div hP, Nat.div_eq_of_lt hvt, Nat.add_zero]
        rw [← h1, ← h2, hval]
      subst hbc
      have hrest : valBE rest = valBE tail := by omega
      rw [ih hlen2 hvrest hvtail hrest]

lemma bytesValid_maskIP {x : List Nat} (m : List Nat)
    (hx : bytesValid x = true) : bytesValid (maskIP x m) = true := by
  rw [bytesValid_iff] at hx ⊢
  induction x generalizing m with
  | nil => intro b hb; simp [maskIP] at hb
  | cons b rest ih =>
    cases m with
    | nil => intro c hc; simp [maskIP] at hc
    | cons mb mrest =>
      simp only [maskIP, List.zipWith_cons_cons]
      intro c hc
      rcases List.mem_cons.mp hc with h0 | h1
      · have hle : b &&& mb ≤ b := Nat.and_le_left
        have hb2 : b < 256 := hx b (List.mem_cons_self _ _)
        omega
      · exact ih mrest (fun d hd => hx d (List.mem_cons_of_mem _ hd)) c h1

/-! ### `Contains` and the enumeration loop -/

/-- A candidate is in the network iff its value has the network's high
`ones` bits, i.e. the two values agree after discarding the low
`8 * n - ones` bits. -/
lemma containsIP_iff {n ones : Nat} {net x : List Nat} (hones : ones ≤ 8 * n)
    (hnet : net.length = n) (hx : x.length = n)
    (hvn : bytesValid net = true) (hvx : bytesValid x = true) :
    containsIP net (CIDRMask ones n) x = true ↔
      valBE x / 2 ^ (8 * n - ones) = valBE net / 2 ^ (8 * n - ones) := by
  have h1 := valBE_maskIP net ones (by rw [hnet]; exact hones) hvn
  rw [hnet] at h1
  have h2 := valBE_maskIP x ones (by rw [hx]; exact hones) hvx
  rw [hx] at h2
  have hpos : 0 < 2 ^ (8 * n - ones) := Nat.pos_pow_of_pos _ (by norm_num)
  unfold containsIP
  rw [Bool.and_eq_true, beq_iff_eq, beq_iff_eq]
  constructor
  · rintro ⟨_, hmask⟩
    have hval := congrArg valBE hmask
    rw [h1, h2] at hval
    exact Nat.eq_of_mul_eq_mul_right hpos hval.symm
  · intro hq
    refine ⟨by rw [hx, hnet], ?_⟩
    have hlenmask : (maskIP net (CIDRMask ones n)).length
        = (maskIP x (CIDRMask ones n)).length := by
      simp only [maskIP, List.length_zipWith, length_CIDRMask, hnet, hx]
    refine valBE_inj hlenmask (bytesValid_maskIP _ hvn) (bytesValid_maskIP _ hvx) ?_
    rw [h1, h2, hq]

/-- Running the enumeration loop with `j` addresses of the block left to
visit yields exactly those `j` addresses, in ascending order of value. -/
lemma cidrLoop_run {n ones : Nat} (net : List Nat) (hones1 : 1 ≤ ones)
    (hones2 : ones ≤ 8 * n) (hnet : net.length = n)
    (hvnet : bytesValid net = true)
    (hdvd : 2 ^ (8 * n - ones) ∣ valBE net) :
    ∀ (j : Nat) (x : List Nat), j ≤ 2 ^ (8 * n - ones) → x.length = n →
      bytesValid x = true →
      valBE x = (valBE net + (2 ^ (8 * n - ones) - j)) % 256 ^ n →
      ∃ L, cidrLoop net (CIDRMask ones n) j x = some L ∧
        L.map valBE = List.range' (valBE net + (2 ^ (8 * n - ones) - j)) j ∧
        ∀ y ∈ L, y.length = n ∧ bytesValid y = true := by
  obtain ⟨q, hq⟩ := hdvd
  have hpos : 0 < 2 ^ (8 * n - ones) := Nat.pos_pow_of_pos _ (by norm_num)
  have hBlt : valBE net < 256 ^ n := by
    have := valBE_lt hvnet
    rwa [hnet] at this
  have hsplitpow : (256 : Nat) ^ n = 2 ^ (8 * n - ones) * 2 ^ ones := by
    rw [pow256_eq, ← pow_add]
    congr 1
    omega
  have hqlt : q < 2 ^ ones := by
    by_contra hcon
    push_neg at hcon
    have h5 : 2 ^ (8 * n - ones) * 2 ^ ones ≤ 2 ^ (8 * n - ones) * q :=
      Nat.mul_le_mul_left _ hcon
    rw [← hsplitpow, ← hq] at h5
    omega
  have hBend : valBE net + 2 ^ (8 * n - ones) ≤ 256 ^ n := by
    have h5 : 2 ^ (8 * n - ones) * (q + 1) ≤ 2 ^ (8 * n - ones) * 2 ^ ones :=
      Nat.mul_le_mul_left _ (by omega)
    rw [← hsplitpow, Nat.mul_succ] at h5
    rw [hq]
    omega
  intro j
  induction j with
  | zero =>
    intro x _ hxlen hvx hval
    have hqnet : valBE net / 2 ^ (8 * n - ones) = q := by
      rw [hq, Nat.mul_div_cancel_left _ hpos]
    have hne : ¬ (valBE x / 2 ^ (8 * n - ones)
        = valBE net / 2 ^ (8 * n - ones)) := by
      rcases Nat.lt_or_ge (valBE net + 2 ^ (8 * n - ones)) (256 ^ n) with hlt | hge
      · -- no wrap: the successor of the block is still below 2^(8n)
        have hx : valBE x = valBE net + 2 ^ (8 * n - ones) := by
          rw [hval, Nat.sub_zero, Nat.mod_eq_of_lt hlt]
        have hxq : valBE x / 2 ^ (8 * n - ones) = q + 1 := by
          rw [hx, hq, ← Nat.mul_succ, Nat.mul_div_cancel_left _ hpos]
        omega
      · -- wrap: the loop has come back to address 0 and `q ≠ 0`
        have hEq : valBE net + 2 ^ (8 * n - ones) = 256 ^ n := by omega
        have hx : valBE x = 0 := by
          rw [hval, Nat.sub_zero, hEq, Nat.mod_self]
        have hq1 : q + 1 = 2 ^ ones := by
          have h5 : 2 ^ (8 * n - ones) * (q + 1)
              = 2 ^ (8 * n - ones) * 2 ^ ones := by
            rw [← hsplitpow, ← hEq, hq, Nat.mul_succ]
          exact Nat.eq_of_mul_eq_mul_left hpos h5
        have hq0 : 1 ≤ q := by
          have h6 : (2 : Nat) ≤ 2 ^ ones := by
            calc (2 : Nat) = 2 ^ 1 := rfl
              _ ≤ 2 ^ ones := Nat.pow_le_pow_right (by norm_num) hones1
          omega
        rw [hx]
        simp only [Nat.zero_div]
        omega
    have hcf : containsIP net (CIDRMask ones n) x = false := by
      rw [← Bool.not_eq_true]
      intro hc
      exact hne ((containsIP_iff hones2 hnet hxlen hvnet hvx).mp hc)
    refine ⟨[], ?_, ?_, ?_⟩
    · simp [cidrLoop, hcf]
    · simp
    · intro y hy
      simp at hy
  | succ j ih =>
    intro x hj hxlen hvx hval
    have htlt : 2 ^ (8 * n - ones) - (j + 1) < 2 ^ (8 * n - ones) := by omega
    have hnowrap : valBE net + (2 ^ (8 * n - ones) - (j + 1)) < 256 ^ n := by
      omega
    have hxval : valBE x = valBE net + (2 ^ (8 * n - ones) - (j + 1)) := by
      rw [hval, Nat.mod_eq_of_lt hnowrap]
    have hct : containsIP net (CIDRMask ones n) x = true := by
      rw [containsIP_iff hones2 hnet hxlen hvnet hvx]
      rw [hxval, hq, Nat.mul_add_div hpos, Nat.mul_div_cancel_left _ hpos,
        Nat.div_eq_of_lt htlt]
      omega
    obtain ⟨L, hL, hmap, hall⟩ := ih (incrementIP x) (by omega)
      (by rw [length_incrementIP, hxlen])
      (bytesValid_incrementIP hvx)
      (by rw [valBE_incrementIP hvx, hxlen, hxval]
          have harg : valBE net + (2 ^ (8 * n - ones) - (j + 1)) + 1
              = valBE net + (2 ^ (8 * n - ones) - j) := by omega
          rw [harg])
    refine ⟨x :: L, ?_, ?_, ?_⟩
    · rw [show cidrLoop net (CIDRMask ones n) (j + 1) x
          = if containsIP net (CIDRMask ones n) x = true then
              (cidrLoop net (CIDRMask ones n) j (incrementIP x)).map
                (fun rest => x :: rest)
            else some [] from by simp [cidrLoop]]
      rw [if_pos hct, hL]
      rfl
    · rw [List.map_cons, hmap, hxval, List.range'_succ]
      have harg2 : valBE net + (2 ^ (8 * n - ones) - (j + 1)) + 1
          = valBE net + (2 ^ (8 * n - ones) - j) := by omega
      rw [harg2]
    · intro y hy
      rcases List.mem_cons.mp hy with h0 | h1
      · subst h0
        exact ⟨hxlen, hvx⟩
      · exact hall y h1

/-- With an all-zero mask every address is in the network, so the loop
never exits whatever the fuel. -/
lemma cidrLoop_zero_mask (n : Nat) :
    ∀ (fuel : Nat) (x : List Nat), x.length = n →
      cidrLoop (List.replicate n 0) (List.replicate n 0) fuel x = none := by
  have hc : ∀ x : List Nat, x.length = n →
      containsIP (List.replicate n 0) (List.replicate n 0) x = true := by
    intro x hx
    unfold containsIP
    rw [maskIP_zero_right x n hx,
      maskIP_zero_right _ n (List.length_replicate n 0),
      List.length_replicate, hx]
    simp
  intro fuel
  induction fuel with
  | zero =>
    intro x hx
    simp [cidrLoop, hc x hx]
  | succ f ih =>
    intro x hx
    simp [cidrLoop, hc x hx, ih (incrementIP x) (by rw [length_incrementIP, hx])]

/-- A whole-address-space CIDR (`ones = 0`) makes `CIDRtoListIP` loop
forever. -/
lemma CIDRtoListIP_ones_zero (ip : List Nat) (fuel : Nat) :
    CIDRtoListIP ip 0 fuel = none := by
  unfold CIDRtoListIP
  rw [CIDRMask_zero, maskIP_zero_right ip ip.length rfl]
  exact cidrLoop_zero_mask ip.length fuel (List.replicate ip.length 0)
    (List.length_replicate ip.length 0)

/-- `CIDRtoListIP` on a CIDR with at least one prefix bit: with fuel
`2 ^ (8n - ones)` it returns exactly the block, in ascending order. -/
lemma CIDRtoListIP_run (ip : List Nat) (ones : Nat) (hones1 : 1 ≤ ones)
    (hones2 : ones ≤ 8 * ip.length) (hv : bytesValid ip = true) :
    ∃ L, CIDRtoListIP ip ones (2 ^ (8 * ip.length - ones)) = some L ∧
      L.map valBE = List.range'
        (valBE ip / 2 ^ (8 * ip.length - ones) * 2 ^ (8 * ip.length - ones))
        (2 ^ (8 * ip.length - ones)) ∧
      ∀ y ∈ L, y.length = ip.length ∧ bytesValid y = true := by
  set n := ip.length with hn
  set net := maskIP ip (CIDRMask ones n) with hnetdef
  have hnetlen : net.length = n := by
    rw [hnetdef]
    simp only [maskIP, List.length_zipWith, length_CIDRMask, hn, Nat.min_self]
  have hvnet : bytesValid net = true := bytesValid_maskIP _ hv
  have hnetval : valBE net = valBE ip / 2 ^ (8 * n - ones) * 2 ^ (8 * n - ones) := by
    rw [hnetdef, hn]
    exact valBE_maskIP ip ones hones2 hv
  have hdvd : 2 ^ (8 * n - ones) ∣ valBE net := by
    rw [hnetval]
    exact Dvd.intro_left _ rfl
  have hBlt : valBE net < 256 ^ n := by
    have := valBE_lt hvnet
    rwa [hnetlen] at this
  obtain ⟨L, hL, hmap, hall⟩ :=
    cidrLoop_run net hones1 hones2 hnetlen hvnet hdvd
      (2 ^ (8 * n - ones)) net (le_refl _) hnetlen hvnet
      (by rw [Nat.sub_self, Nat.add_zero, Nat.mod_eq_of_lt hBlt])
  refine ⟨L, ?_, ?_, hall⟩
  · rw [CIDRtoListIP, ← hn, ← hnetdef]
    exact hL
  · rw [hmap, Nat.sub_self, Nat.add_zero, hnetval]

/-! ### History file appends -/

/-- Folding appends over a non-empty file only ever concatenates the
batches. -/
lemma foldl_appendResultsToCSV (header : Row) :
    ∀ (bs : List (List Row)) (f : List Row), f ≠ [] →
      bs.foldl (appendResultsToCSV header) f = f ++ bs.flatten := by
  intro bs
  induction bs with
  | nil => intro f _; simp
  | cons b rest ih =>
    intro f hf
    rw [List.foldl_cons]
    have h1 : appendResultsToCSV header f b = f ++ b := by
      unfold appendResultsToCSV
      rw [if_neg (fun hemp => hf (List.isEmpty_iff.mp hemp))]
    rw [h1, ih (f ++ b) (fun h => hf (List.append_eq_nil.mp h).1)]
    simp [List.flatten_cons, List.append_assoc]

/-! ### WebSocket batching -/

lemma flush_store_append (st : WsState) :
    (flushHttpResultBuffer st).store ++ (flushHttpResultBuffer st).buffer
      = st.store ++ st.buffer := by
  unfold flushHttpResultBuffer
  by_cases h : st.buffer.isEmpty
  · rw [if_pos h]
  · rw [if_neg h]
    simp

lemma flush_buffer_nil (st : WsState) : (flushHttpResultBuffer st).buffer = [] := by
  unfold flushHttpResultBuffer
  by_cases h : st.buffer.isEmpty
  · rw [if_pos h]
    exact List.isEmpty_iff.mp h
  · rw [if_neg h]

/-- The store plus the pending buffer always equals everything received. -/
lemma wsStep_foldl_invariant :
    ∀ (evs : List WsEvent) (st : WsState),
      (evs.foldl wsStep st).store ++ (evs.foldl wsStep st).buffer
        = st.store ++ st.buffer ++ wsResults evs := by
  intro evs
  induction evs with
  | nil => intro st; simp [wsResults]
  | cons e rest ih =>
    intro st
    rw [List.foldl_cons]
    cases e with
    | httpResult r =>
      rw [ih]
      simp [wsStep, startHttpResultBatching, wsResults, List.append_assoc]
    | httpTestStatus s =>
      rw [ih]
      show (stopHttpResultBatching st).store ++ (stopHttpResultBatching st).buffer
          ++ wsResults rest = _
      unfold stopHttpResultBatching
      rw [flush_store_append]
      simp [wsResults]
    | tick =>
      rw [ih]
      simp only [wsStep]
      by_cases ht : st.timerActive
      · rw [if_pos ht, flush_store_append]
        simp [wsResults]
      · rw [if_neg ht]
        simp [wsResults]
    | socketClosed =>
      rw [ih]
      show (stopHttpResultBatching st).store ++ (stopHttpResultBatching st).buffer
          ++ wsResults rest = _
      unfold stopHttpResultBatching
      rw [flush_store_append]
      simp [wsResults]

lemma wsRun_invariant (evs : List WsEvent) :
    (wsRun evs).store ++ (wsRun evs).buffer = wsResults evs := by
  have h := wsStep_foldl_invariant evs ⟨[], false, []⟩
  simpa [wsRun] using h

lemma wsRun_append_single (evs : List WsEvent) (e : WsEvent) :
    wsRun (evs ++ [e]) = wsStep (wsRun evs) e := by
  rw [wsRun, List.foldl_append]
  rfl

/-! ### The claims -/

/-- Claim C1, counterexample: the claim quantifies over every valid CIDR
string, but on the valid CIDR `0.0.0.0/0` the enumeration loop of
`CIDRtoListIP` never terminates (the byte-wise increment wraps back into
the network), so no list is ever produced. -/
theorem claim_C1_counterexample : enumerationDiverges [0, 0, 0, 0] 0 :=
  fun fuel => CIDRtoListIP_ones_zero [0, 0, 0, 0] fuel

/-- Claim C1 (amended to prefix length ≥ 1): for every valid CIDR with at
least one prefix bit, `CIDRtoListIP` returns exactly the addresses of the
block, in ascending network order (their values are the integer range of
the block), for any byte length, so both for IPv4 and IPv6; in particular
`104.16.0.0/30` yields exactly `104.16.0.0, 104.16.0.1, 104.16.0.2,
104.16.0.3` in that order, and `2606:4700::/126` yields exactly four
addresses in network order. -/
theorem claim_C1 :
    (∀ (ip : List Nat) (ones : Nat), 1 ≤ ones → ones ≤ 8 * ip.length →
      bytesValid ip = true →
      ∃ L, CIDRtoListIP ip ones (2 ^ (8 * ip.length - ones)) = some L ∧
        L.map valBE = List.range'
          (valBE ip / 2 ^ (8 * ip.length - ones) * 2 ^ (8 * ip.length - ones))
          (2 ^ (8 * ip.length - ones)) ∧
        ∀ y ∈ L, y.length = ip.length ∧ bytesValid y = true) ∧
    CIDRtoListIP [104, 16, 0, 0] 30 4
      = some [[104, 16, 0, 0], [104, 16, 0, 1], [104, 16, 0, 2],
              [104, 16, 0, 3]] ∧
    (CIDRtoListIP [104, 16, 0, 0] 30 4).map (fun L => L.map ipv4String)
      = some ["104.16.0.0", "104.16.0.1", "104.16.0.2", "104.16.0.3"] ∧
    CIDRtoListIP [38, 6, 71, 0, 0, 0, 0, 0, 0, 0, 0, 0, 0, 0, 0, 0] 126 4
      = some [[38, 6, 71, 0, 0, 0, 0, 0, 0, 0, 0, 0, 0, 0, 0, 0],
              [38, 6, 71, 0, 0, 0, 0, 0, 0, 0, 0, 0, 0, 0, 0, 1],
              [38, 6, 71, 0, 0, 0, 0, 0, 0, 0, 0, 0, 0, 0, 0, 2],
              [38, 6, 71, 0, 0, 0, 0, 0, 0, 0, 0, 0, 0, 0, 0, 3]] := by
  refine ⟨fun ip ones h1 h2 hv => CIDRtoListIP_run ip ones h1 h2 hv,
    by decide, by decide, by decide⟩

/-- Witness for claim C1 at the concrete CIDR `192.168.1.0/30`. -/
theorem claim_C1_witness :
    bytesValid [192, 168, 1, 0] = true ∧
    ∃ L, CIDRtoListIP [192, 168, 1, 0] 30
        (2 ^ (8 * ([192, 168, 1, 0] : List Nat).length - 30)) = some L ∧
      L.map valBE = List.range'
        (valBE [192, 168, 1, 0]
            / 2 ^ (8 * ([192, 168, 1, 0] : List Nat).length - 30)
          * 2 ^ (8 * ([192, 168, 1, 0] : List Nat).length - 30))
        (2 ^ (8 * ([192, 168, 1, 0] : List Nat).length - 30)) ∧
      ∀ y ∈ L, y.length = ([192, 168, 1, 0] : List Nat).length ∧
        bytesValid y = true :=
  ⟨by decide, claim_C1.1 [192, 168, 1, 0] 30 (by decide) (by decide) (by decide)⟩

/-- Claim C2, counterexample: the hardcoded fallback list does not contain
17 IPv4 blocks. -/
theorem claim_C2_counterexample :
    ¬ ((cloudflareRanges.filter (fun s => !isIPv6Range s)).length = 17 ∧
       (cloudflareRanges.filter (fun s => isIPv6Range s)).length = 5) := by
  decide

/-- Claim C2 (amended): the hardcoded Cloudflare fallback list contains
exactly 15 IPv4 CIDR blocks and 5 IPv6 CIDR blocks. -/
theorem claim_C2 :
    (cloudflareRanges.filter (fun s => !isIPv6Range s)).length = 15 ∧
    (cloudflareRanges.filter (fun s => isIPv6Range s)).length = 5 ∧
    cloudflareRanges.length = 20 := by
  decide

/-- Claim C3, counterexample: with one URL fetched successfully and the
other failing, the handler still serves the hardcoded fallback list (which
does not contain the fetched range), so a single success does not produce
the live ranges. -/
theorem claim_C3_counterexample :
    handleCfScannerRanges "GET"
        [⟨false, 200, false, "198.51.100.0/24"⟩, ⟨true, 0, false, ""⟩]
      = writeJSONResponse 200 (Payload.ranges cloudflareRanges) ∧
    "198.51.100.0/24" ∉ cloudflareRanges := by
  decide

/-- Claim C3 (amended): the handler serves the hardcoded fallback list
whenever at least one URL fetch fails, and serves the live fetched ranges
only when every fetch succeeds. -/
theorem claim_C3 :
    ∀ fetches : List FetchResult,
      (fetches.any fetchFailed = true →
        handleCfScannerRanges "GET" fetches
          = writeJSONResponse 200 (Payload.ranges cloudflareRanges)) ∧
      (fetches.any fetchFailed = false →
        handleCfScannerRanges "GET" fetches
          = writeJSONResponse 200 (Payload.ranges
              (fetches.foldr (fun r acc => splitRanges r.body ++ acc) []))) := by
  intro fetches
  constructor
  · intro hfail
    simp [handleCfScannerRanges, hfail]
  · intro hok
    have hall : fetches.filter (fun r => !fetchFailed r) = fetches := by
      apply List.filter_eq_self.mpr
      intro r hr
      have h2 := List.any_eq_false.mp hok r hr
      cases h3 : fetchFailed r with
      | false => rfl
      | true => exact absurd h3 h2
    simp [handleCfScannerRanges, hok, hall]

/-- Witness for claim C3 with a single successful fetch. -/
theorem claim_C3_witness :
    ([⟨false, 200, false, "1.2.3.0/24"⟩] : List FetchResult).any fetchFailed
      = false ∧
    handleCfScannerRanges "GET" [⟨false, 200, false, "1.2.3.0/24"⟩]
      = writeJSONResponse 200 (Payload.ranges
          (([⟨false, 200, false, "1.2.3.0/24"⟩] : List FetchResult).foldr
            (fun r acc => splitRanges r.body ++ acc) [])) :=
  ⟨by decide, (claim_C3 [⟨false, 200, false, "1.2.3.0/24"⟩]).2 (by decide)⟩

/-- Claim C4: an append to an empty (or newly created) history file writes
the header row first, an append to a non-empty file writes no header, and
hence in any sequence of appends starting from an empty file the header
row appears only as the very first row, never in the middle. -/
theorem claim_C4 :
    (∀ (header : Row) (batch : List Row),
      appendResultsToCSV header [] batch = header :: batch) ∧
    (∀ (header : Row) (contents : List Row) (batch : List Row), contents ≠ [] →
      appendResultsToCSV header contents batch = contents ++ batch) ∧
    (∀ (header : Row) (bs : List (List Row)), bs ≠ [] →
      bs.foldl (appendResultsToCSV header) [] = header :: bs.flatten) ∧
    (∀ (header : Row) (bs : List (List Row)),
      (∀ r ∈ bs.flatten, r ≠ header) →
      ∀ r ∈ (bs.foldl (appendResultsToCSV header) []).drop 1, r ≠ header) := by
  have hempty : ∀ (header : Row) (batch : List Row),
      appendResultsToCSV header [] batch = header :: batch := by
    intro header batch
    rfl
  have hne : ∀ (header : Row) (contents : List Row) (batch : List Row),
      contents ≠ [] →
      appendResultsToCSV header contents batch = contents ++ batch := by
    intro header contents batch hc
    unfold appendResultsToCSV
    rw [if_neg (fun hemp => hc (List.isEmpty_iff.mp hemp))]
  have hfold : ∀ (header : Row) (bs : List (List Row)), bs ≠ [] →
      bs.foldl (appendResultsToCSV header) [] = header :: bs.flatten := by
    intro header bs hbs
    cases bs with
    | nil => exact absurd rfl hbs
    | cons b rest =>
      rw [List.foldl_cons, hempty header b,
        foldl_appendResultsToCSV header rest (header :: b) (by simp)]
      simp [List.flatten_cons]
  refine ⟨hempty, hne, hfold, ?_⟩
  intro header bs hnin r hr
  cases bs with
  | nil => simp at hr
  | cons b rest =>
    rw [hfold header (b :: rest) (by simp), List.drop_one, List.tail_cons] at hr
    exact hnin r hr

/-- Witness for claim C4: two batches folded onto an empty file. -/
theorem claim_C4_witness :
    ([[["1"]], [["2"]]] : List (List Row)) ≠ [] ∧
    ([[["1"]], [["2"]]] : List (List Row)).foldl (appendResultsToCSV ["h"]) []
      = ["h"] :: ([[["1"]], [["2"]]] : List (List Row)).flatten :=
  ⟨by decide, claim_C4.2.2.1 ["h"] [[["1"]], [["2"]]] (by decide)⟩

/-- Claim C5: writing a batch of records to an empty history file and
reloading it yields exactly the records written, field by field. -/
theorem claim_C5 :
    ∀ (header : Row) (batch : List Row),
      batch.all (fun r => r.length == header.length) = true →
      loadResultsFromCSV (some (appendResultsToCSV header [] batch))
        = Except.ok batch := by
  intro header batch hall
  show loadResultsFromCSV (some (header :: batch)) = Except.ok batch
  simp [loadResultsFromCSV, hall]

/-- Witness for claim C5 with a two-record batch. -/
theorem claim_C5_witness :
    (([["1", "2"], ["3", "4"]] : List Row).all
      (fun r => r.length == (["delay", "status"] : Row).length) = true) ∧
    loadResultsFromCSV (some (appendResultsToCSV ["delay", "status"] []
        [["1", "2"], ["3", "4"]])) = Except.ok [["1", "2"], ["3", "4"]] :=
  ⟨by decide, claim_C5 ["delay", "status"] [["1", "2"], ["3", "4"]] (by decide)⟩

/-- Claim C6: `incrementIP` is the successor on the address value read as a
big-endian base-256 counter, modulo `256 ^ length`; the all-255 address
wraps to the all-zero address. -/
theorem claim_C6 :
    (∀ ip : List Nat, bytesValid ip = true →
      (incrementIP ip).length = ip.length ∧
      valBE (incrementIP ip) = (valBE ip + 1) % 256 ^ ip.length) ∧
    (∀ n : Nat, incrementIP (List.replicate n 255) = List.replicate n 0) := by
  constructor
  · intro ip hv
    exact ⟨length_incrementIP ip, valBE_incrementIP hv⟩
  · exact incrementIP_all_255

/-- Witness for claim C6 at `10.0.255`. -/
theorem claim_C6_witness :
    bytesValid [10, 0, 255] = true ∧
    ((incrementIP [10, 0, 255]).length = ([10, 0, 255] : List Nat).length ∧
      valBE (incrementIP [10, 0, 255])
        = (valBE [10, 0, 255] + 1) % 256 ^ ([10, 0, 255] : List Nat).length) :=
  ⟨by decide, claim_C6.1 [10, 0, 255] (by decide)⟩

/-- Claim C7: POST `/proxy/stop` answers 200 on success and 404 with the
error message on failure; POST `/proxy/rotate` answers 200 on success and
409 with the error message on failure. -/
theorem claim_C7 :
    ∀ e : String,
      handleProxyStop "POST" none
        = writeJSONResponse 200 (Payload.statusMsg "Proxy service stopped") ∧
      handleProxyStop "POST" (some e) = writeJSONError e 404 ∧
      handleProxyRotate "POST" none
        = writeJSONResponse 200 (Payload.statusMsg "Rotate signal sent") ∧
      handleProxyRotate "POST" (some e) = writeJSONError e 409 := by
  intro e
  refine ⟨rfl, rfl, rfl, rfl⟩

/-- Witness for claim C7 at a concrete error message. -/
theorem claim_C7_witness :
    handleProxyStop "POST" none
      = writeJSONResponse 200 (Payload.statusMsg "Proxy service stopped") ∧
    handleProxyStop "POST" (some "no proxy") = writeJSONError "no proxy" 404 ∧
    handleProxyRotate "POST" none
      = writeJSONResponse 200 (Payload.statusMsg "Rotate signal sent") ∧
    handleProxyRotate "POST" (some "no proxy") = writeJSONError "no proxy" 409 :=
  claim_C7 "no proxy"

/-- Claim C8: the WebSocket consumer batches `http_result` payloads with a
250 ms interval timer; at every point the store plus the pending buffer
holds exactly the results received, in order, and a terminal
`http_test_status` message flushes the buffer, so after it every received
result has been delivered to the store and none is dropped. -/
theorem claim_C8 :
    BATCH_INTERVAL = 250 ∧
    (∀ evs : List WsEvent,
      (wsRun evs).store ++ (wsRun evs).buffer = wsResults evs) ∧
    (∀ (evs : List WsEvent) (s : String),
      (wsRun (evs ++ [WsEvent.httpTestStatus s])).buffer = [] ∧
      (wsRun (evs ++ [WsEvent.httpTestStatus s])).store = wsResults evs) := by
  refine ⟨rfl, wsRun_invariant, ?_⟩
  intro evs s
  have hbuf : (wsRun (evs ++ [WsEvent.httpTestStatus s])).buffer = [] := by
    rw [wsRun_append_single]
    show (stopHttpResultBatching (wsRun evs)).buffer = []
    unfold stopHttpResultBatching
    exact flush_buffer_nil _
  refine ⟨hbuf, ?_⟩
  have hinv := wsRun_invariant (evs ++ [WsEvent.httpTestStatus s])
  rw [hbuf, List.append_nil] at hinv
  rw [hinv]
  simp [wsResults]

/-- Witness for claim C8 on a short concrete trace. -/
theorem claim_C8_witness :
    (wsRun [WsEvent.httpResult "a", WsEvent.tick, WsEvent.httpResult "b"]).store
        ++ (wsRun [WsEvent.httpResult "a", WsEvent.tick,
              WsEvent.httpResult "b"]).buffer
      = wsResults [WsEvent.httpResult "a", WsEvent.tick,
          WsEvent.httpResult "b"] :=
  claim_C8.2.1 [WsEvent.httpResult "a", WsEvent.tick, WsEvent.httpResult "b"]

/-- Claim C9: for prefix length at least 1 the enumeration terminates with
exactly `2 ^ (address_bits - prefix_length)` addresses, and for prefix
length 0 the loop never terminates, whatever the fuel. -/
theorem claim_C9 :
    (∀ (ip : List Nat) (ones : Nat), 1 ≤ ones → ones ≤ 8 * ip.length →
      bytesValid ip = true →
      ∃ L, CIDRtoListIP ip ones (2 ^ (8 * ip.length - ones)) = some L ∧
        L.length = 2 ^ (8 * ip.length - ones)) ∧
    (∀ (ip : List Nat) (fuel : Nat), CIDRtoListIP ip 0 fuel = none) := by
  constructor
  · intro ip ones h1 h2 hv
    obtain ⟨L, hL, hmap, _⟩ := CIDRtoListIP_run ip ones h1 h2 hv
    refine ⟨L, hL, ?_⟩
    have hlen := congrArg List.length hmap
    rwa [List.length_map, List.length_range'] at hlen
  · exact fun ip fuel => CIDRtoListIP_ones_zero ip fuel

/-- Witness for claim C9 at `104.16.0.0/30`. -/
theorem claim_C9_witness :
    bytesValid [104, 16, 0, 0] = true ∧
    ∃ L, CIDRtoListIP [104, 16, 0, 0] 30
        (2 ^ (8 * ([104, 16, 0, 0] : List Nat).length - 30)) = some L ∧
      L.length = 2 ^ (8 * ([104, 16, 0, 0] : List Nat).length - 30) :=
  ⟨by decide, claim_C9.1 [104, 16, 0, 0] 30 (by decide) (by decide) (by decide)⟩

/-- Claim C10: a missing history file and an empty history file both load
as a nil error with no records, and the history endpoint then answers 200
with an empty array. -/
theorem claim_C10 :
    loadResultsFromCSV none = Except.ok ([] : List Row) ∧
    loadResultsFromCSV (some []) = Except.ok ([] : List Row) ∧
    handleHttpTestHistory "GET" none
      = writeJSONResponse 200 (Payload.rows []) ∧
    handleHttpTestHistory "GET" (some [])
      = writeJSONResponse 200 (Payload.rows []) := by
  refine ⟨rfl, rfl, rfl, rfl⟩

end XrayKnife
